import Mathlib

/-!
Shallow embedding of the Tetris game-state engine in `main.py`
(classes `Tetromino` and `TetrisGame`), restricted to the engine core:
shape catalog, piece, board, bag queue, hold slot, timers and the
command/tick state machine.  Rendering, pygame event polling and the
game-over dialog are external collaborators and are not modelled.

Python floats are modelled as rationals; `random.shuffle` outputs are
passed in as explicit list parameters (with permutation hypotheses where
the claims need fairness).
-/

namespace Resomino

def GRID_WIDTH : Nat := 10
def GRID_HEIGHT : Nat := 20

def LOCK_DELAY : ℚ := 0.5

inductive Shape
  | I | O | T | S | Z | L | J
deriving DecidableEq, Repr, Fintype

/-- `TETROMINOES` table of `main.py`: for each shape, 4 rotation states,
each a list of 4 `(column-offset, row-offset)` pairs. -/
def TETROMINOES : Shape → List (List (Int × Int))
  | Shape.I =>
      [[(0, 0), (1, 0), (2, 0), (3, 0)],
       [(0, 0), (0, 1), (0, 2), (0, 3)],
       [(0, 0), (1, 0), (2, 0), (3, 0)],
       [(0, 0), (0, 1), (0, 2), (0, 3)]]
  | Shape.O =>
      [[(0, 0), (1, 0), (0, 1), (1, 1)],
       [(0, 0), (1, 0), (0, 1), (1, 1)],
       [(0, 0), (1, 0), (0, 1), (1, 1)],
       [(0, 0), (1, 0), (0, 1), (1, 1)]]
  | Shape.T =>
      [[(0, 1), (1, 1), (2, 1), (1, 0)],
       [(1, 0), (1, 1), (1, 2), (2, 1)],
       [(0, 0), (1, 0), (2, 0), (1, 1)],
       [(0, 1), (1, 1), (1, 0), (1, 2)]]
  | Shape.S =>
      [[(1, 0), (2, 0), (0, 1), (1, 1)],
       [(1, 0), (1, 1), (2, 1), (2, 2)],
       [(1, 1), (2, 1), (0, 2), (1, 2)],
       [(0, 0), (0, 1), (1, 1), (1, 2)]]
  | Shape.Z =>
      [[(0, 0), (1, 0), (1, 1), (2, 1)],
       [(1, -1), (1, 0), (0, 0), (0, 1)],
       [(0, 0), (1, 0), (1, 1), (2, 1)],
       [(1, -1), (1, 0), (0, 0), (0, 1)]]
  | Shape.L =>
      [[(0, 0), (0, 1), (0, 2), (1, 2)],
       [(0, 0), (1, 0), (2, 0), (0, 1)],
       [(1, 0), (1, 1), (1, 2), (0, 0)],
       [(0, 1), (1, 1), (2, 1), (2, 0)]]
  | Shape.J =>
      [[(1, 0), (1, 1), (1, 2), (0, 2)],
       [(0, 0), (0, 1), (1, 1), (2, 1)],
       [(0, 0), (0, 1), (0, 2), (1, 0)],
       [(0, 0), (1, 0), (2, 0), (2, 1)]]

/-- `list(TETROMINOES.keys())` in Python dict insertion order. -/
def shapeKeys : List Shape :=
  [Shape.I, Shape.O, Shape.T, Shape.S, Shape.Z, Shape.L, Shape.J]

abbrev Color := Nat × Nat × Nat

/-- `COLORS` table of `main.py`. -/
def COLORS : Shape → Color
  | Shape.I => (0, 255, 255)
  | Shape.O => (255, 255, 0)
  | Shape.T => (128, 0, 128)
  | Shape.S => (0, 255, 0)
  | Shape.Z => (255, 0, 0)
  | Shape.J => (0, 0, 255)
  | Shape.L => (255, 165, 0)

/-- Class `Tetromino`: shape kind, rotation index, anchor position, color. -/
@[ext]
structure Tetromino where
  shape : Shape
  rotation_index : Int
  x : Int
  y : Int
  color : Color
deriving DecidableEq, Repr

/-- `Tetromino.__init__(shape)`: rotation 0, anchor (3, 0), color from table. -/
def mkTetromino (shape : Shape) : Tetromino :=
  { shape := shape, rotation_index := 0, x := 3, y := 0, color := COLORS shape }

/-- `Tetromino.get_blocks`: anchor-shifted offsets of the current rotation
(the index is taken modulo the number of rotation variants, as in Python). -/
def Tetromino.get_blocks (p : Tetromino) : List (Int × Int) :=
  let rotation_variants := TETROMINOES p.shape
  let coords := rotation_variants.getD
    (p.rotation_index % (rotation_variants.length : Int)).toNat []
  coords.map fun c => (p.x + c.1, p.y + c.2)

/-- `Tetromino.rotate(direction)`. -/
def Tetromino.rotate (p : Tetromino) (direction : Int) : Tetromino :=
  { p with rotation_index :=
      (p.rotation_index + direction) % ((TETROMINOES p.shape).length : Int) }

abbrev Board := List (List (Option Color))

def emptyRow : List (Option Color) := List.replicate GRID_WIDTH none

def emptyBoard : Board := List.replicate GRID_HEIGHT emptyRow

/-- Python list indexing `l[i]` including the negative-index wrap; out-of-range
accesses (which raise `IndexError` in Python) return the default, and are not
reached from the states the claims are about. -/
def pyGet (l : List α) (i : Int) (d : α) : α :=
  if 0 ≤ i then l.getD i.toNat d else l.getD (l.length - (-i).toNat) d

/-- `self.board[y][x]` as an `Option Color` (`none` = empty cell). -/
def boardCell (b : Board) (x y : Int) : Option Color :=
  pyGet (pyGet b y []) x none

/-- The full engine state of class `TetrisGame` (engine fields only; the
pygame screen/clock handles are presentation state and are omitted). -/
@[ext]
structure TetrisGame where
  board : Board
  lines_cleared : Nat
  total_time : ℚ
  upcoming_pieces : List Tetromino
  held_piece : Option Tetromino
  hold_used_this_turn : Bool
  current_piece : Tetromino
  drop_timer : ℚ
  drop_interval : ℚ
  lock_timer : ℚ
  running : Bool
  left_held : Bool
  right_held : Bool
  horizontal_move_cooldown : ℚ
  initial_delay : ℚ
  repeat_interval : ℚ
deriving DecidableEq, Repr

/-- `TetrisGame._is_valid_position`: every block of the piece must be inside
the 10×20 grid and on an empty board cell. -/
def _is_valid_position (b : Board) (piece : Tetromino) : Bool :=
  piece.get_blocks.all fun c =>
    decide (0 ≤ c.1) && decide (c.1 < (GRID_WIDTH : Int)) &&
    decide (0 ≤ c.2) && decide (c.2 < (GRID_HEIGHT : Int)) &&
    (boardCell b c.1 c.2).isNone

/-- `TetrisGame.is_on_ground`: moving the piece one row down would leave the
grid at the bottom or overlap an occupied cell. -/
def is_on_ground (b : Board) (piece : Tetromino) : Bool :=
  piece.get_blocks.any fun c =>
    decide (c.2 + 1 ≥ (GRID_HEIGHT : Int)) || (boardCell b c.1 (c.2 + 1)).isSome

/-- `TetrisGame._generate_new_bag`: appends one piece per shape of a shuffled
copy of `TETROMINOES.keys()`.  The shuffle outcome is the parameter `shapes`;
fairness (`shapes` is a permutation of `shapeKeys`) is a hypothesis where a
claim needs it. -/
def _generate_new_bag (shapes : List Shape) (g : TetrisGame) : TetrisGame :=
  { g with upcoming_pieces := g.upcoming_pieces ++ shapes.map mkTetromino }

/-- `TetrisGame.spawn_new_piece`: refill the bag when fewer than 7 pieces
remain, pop the queue head as the new current piece, clear the hold flag and
lock timer, and flag game over if the spawned piece is in an invalid position.
(`list.pop(0)` raises on an empty list in Python; the queue is provably
nonempty at every pop when the refill parameter is a 7-piece bag, so the
`headD` default is never read in any claim context.) -/
def spawn_new_piece (newBag : List Shape) (g : TetrisGame) : TetrisGame :=
  let g := if g.upcoming_pieces.length < 7 then _generate_new_bag newBag g else g
  let cur := g.upcoming_pieces.headD (mkTetromino Shape.I)
  let g := { g with current_piece := cur, upcoming_pieces := g.upcoming_pieces.tail,
                    hold_used_this_turn := false, lock_timer := 0 }
  if !(_is_valid_position g.board g.current_piece) then { g with running := false }
  else g

/-- `TetrisGame.__init__` (engine fields): empty board, two shuffled bags
appended (shuffle outcomes `s1`, `s2`), first piece popped from the queue. -/
def initGame (s1 s2 : List Shape) : TetrisGame :=
  let g : TetrisGame :=
    { board := emptyBoard
      lines_cleared := 0
      total_time := 0
      upcoming_pieces := []
      held_piece := none
      hold_used_this_turn := false
      current_piece := mkTetromino Shape.I  -- overwritten by the pop below
      drop_timer := 0
      drop_interval := 0.5
      lock_timer := 0
      running := true
      left_held := false
      right_held := false
      horizontal_move_cooldown := 0
      initial_delay := 0.2
      repeat_interval := 0.05 }
  let g := _generate_new_bag s1 g
  let g := _generate_new_bag s2 g
  { g with current_piece := g.upcoming_pieces.headD (mkTetromino Shape.I),
           upcoming_pieces := g.upcoming_pieces.tail }

/-- `TetrisGame.move_piece`: shift the anchor; restore it exactly when the new
placement is invalid; reset the lock timer when the move lands on the ground. -/
def move_piece (dx dy : Int) (g : TetrisGame) : TetrisGame :=
  let p := { g.current_piece with x := g.current_piece.x + dx,
                                  y := g.current_piece.y + dy }
  if !(_is_valid_position g.board p) then g
  else if is_on_ground g.board p then { g with current_piece := p, lock_timer := 0 }
  else { g with current_piece := p }

/-- `TetrisGame.rotate_piece`: rotate; restore the old rotation index exactly
when the new placement is invalid; reset the lock timer when grounded. -/
def rotate_piece (direction : Int) (g : TetrisGame) : TetrisGame :=
  let p := g.current_piece.rotate direction
  if !(_is_valid_position g.board p) then g
  else if is_on_ground g.board p then { g with current_piece := p, lock_timer := 0 }
  else { g with current_piece := p }

/-- `TetrisGame.soft_drop`: one row down; silently revert when invalid (lock
delay governs locking); reset the lock timer when the drop lands grounded. -/
def soft_drop (g : TetrisGame) : TetrisGame :=
  let p := { g.current_piece with y := g.current_piece.y + 1 }
  if !(_is_valid_position g.board p) then g
  else if is_on_ground g.board p then { g with current_piece := p, lock_timer := 0 }
  else { g with current_piece := p }

/-- The `while self._is_valid_position(...): y += 1` loop of
`TetrisGame.hard_drop`: descend while the placement stays valid, returning the
first invalid placement of the chain.  (Termination: a valid placement keeps
every block row inside the grid and every rotation offset row is ≥ -1, so the
anchor row of a valid piece is at most 20.) -/
def fallWhileValid (b : Board) (p : Tetromino) : Tetromino :=
  if h : _is_valid_position b p = true then
    fallWhileValid b { p with y := p.y + 1 }
  else p
termination_by (21 - p.y).toNat
decreasing_by
  show (21 - (p.y + 1)).toNat < (21 - p.y).toNat
  have hy : p.y ≤ 20 := by
    have tbl : ∀ s : Shape, ∀ n < 4, ((TETROMINOES s).getD n []).length = 4 ∧
        ∀ c ∈ (TETROMINOES s).getD n [], -1 ≤ c.2 := by decide
    have h4 : (TETROMINOES p.shape).length = 4 := by cases p.shape <;> rfl
    have hlt : (p.rotation_index % ((TETROMINOES p.shape).length : Int)).toNat < 4 := by
      rw [h4]; omega
    have hlen : p.get_blocks.length = 4 := by
      unfold Tetromino.get_blocks
      simp only [List.length_map]
      exact (tbl p.shape _ hlt).1
    unfold _is_valid_position at h
    rw [List.all_eq_true] at h
    obtain ⟨c, hc⟩ : ∃ c, c ∈ p.get_blocks := by
      rcases hb : p.get_blocks with _ | ⟨a, t⟩
      · rw [hb] at hlen; simp at hlen
      · exact ⟨a, hb ▸ List.mem_cons_self a t⟩
    have hcy : c.2 < (GRID_HEIGHT : Int) := by
      have := h c hc
      simp only [Bool.and_eq_true, decide_eq_true_eq] at this
      exact this.1.2
    unfold Tetromino.get_blocks at hc
    simp only [List.mem_map] at hc
    obtain ⟨off, hoff, hceq⟩ := hc
    have hge : -1 ≤ off.2 := (tbl p.shape _ hlt).2 off hoff
    have : c.2 = p.y + off.2 := by rw [← hceq]
    simp only [GRID_HEIGHT] at hcy
    omega
  omega

/-- The full-row test of `TetrisGame.clear_lines` on one row:
`all(row[col_idx] is not None for col_idx in range(GRID_WIDTH))`. -/
def rowFull (r : List (Option Color)) : Bool :=
  (List.range GRID_WIDTH).all fun col_idx => (r.getD col_idx none).isSome

/-- `TetrisGame.clear_lines`: scan for full rows, remove each (ascending
index) with an empty row inserted at the top, and count them. -/
def clear_lines (g : TetrisGame) : TetrisGame :=
  let full_rows := (List.range GRID_HEIGHT).filter fun row_idx =>
    rowFull (g.board.getD row_idx [])
  let newBoard := full_rows.foldl
    (fun acc row_idx => emptyRow :: acc.eraseIdx row_idx) g.board
  { g with board := newBoard, lines_cleared := g.lines_cleared + full_rows.length }

/-- The per-cell commit of `TetrisGame.lock_piece`: each block inside the grid
is written with the piece color; blocks above the top (y < 0) are skipped. -/
def commitBlocks (b : Board) (blocks : List (Int × Int)) (color : Color) : Board :=
  blocks.foldl (fun acc c =>
    if 0 ≤ c.2 ∧ c.2 < (GRID_HEIGHT : Int) ∧ 0 ≤ c.1 ∧ c.1 < (GRID_WIDTH : Int) then
      acc.set c.2.toNat ((acc.getD c.2.toNat []).set c.1.toNat (some color))
    else acc) b

/-- `TetrisGame.lock_piece`: commit the current piece's blocks, then clear
full lines. -/
def lock_piece (g : TetrisGame) : TetrisGame :=
  clear_lines { g with
    board := commitBlocks g.board g.current_piece.get_blocks g.current_piece.color }

/-- `TetrisGame.hard_drop`: fall while valid, step back one row, lock, spawn. -/
def hard_drop (newBag : List Shape) (g : TetrisGame) : TetrisGame :=
  let p1 := fallWhileValid g.board g.current_piece
  let g := { g with current_piece := { p1 with y := p1.y - 1 } }
  spawn_new_piece newBag (lock_piece g)

/-- `TetrisGame.hold_piece`: no-op when the hold was already used this
piece-lifetime; otherwise stash/swap with the held slot (flagging game over on
an invalid swap-in) and reset the lock timer. -/
def hold_piece (newBag : List Shape) (g : TetrisGame) : TetrisGame :=
  if g.hold_used_this_turn then g
  else
    let g := { g with hold_used_this_turn := true }
    match g.held_piece with
    | none =>
        let g := { g with held_piece := some g.current_piece }
        let g := spawn_new_piece newBag g
        { g with lock_timer := 0 }
    | some held =>
        let cur := { held with x := 3, y := 0, rotation_index := 0 }
        let g := { g with current_piece := cur, held_piece := some g.current_piece }
        let g := if !(_is_valid_position g.board g.current_piece) then
                   { g with running := false }
                 else g
        { g with lock_timer := 0 }

/-- The key-repeat block at the top of `TetrisGame.update`; `keysLeft` and
`keysRight` stand for `pygame.key.get_pressed()` on the two arrow keys. -/
def updateHorizontal (keysLeft keysRight : Bool) (dt : ℚ) (g : TetrisGame) :
    TetrisGame :=
  if g.left_held || g.right_held then
    let g := { g with horizontal_move_cooldown := g.horizontal_move_cooldown - dt }
    if g.horizontal_move_cooldown ≤ 0 then
      let g :=
        if g.left_held && keysLeft then move_piece (-1) 0 g
        else if g.right_held && keysRight then move_piece 1 0 g
        else g
      { g with horizontal_move_cooldown := g.repeat_interval }
    else g
  else g

/-- The remainder of `TetrisGame.update` after the key-repeat block: advance
the drop and total-time timers, handle lock delay (lock + spawn on timeout),
then perform the gravity soft drop on drop-timer expiry. -/
def updateGravity (newBag : List Shape) (dt : ℚ) (g : TetrisGame) : TetrisGame :=
  let g := { g with drop_timer := g.drop_timer + dt, total_time := g.total_time + dt }
  let g :=
    if is_on_ground g.board g.current_piece then
      let g := { g with lock_timer := g.lock_timer + dt }
      if g.lock_timer ≥ LOCK_DELAY then spawn_new_piece newBag (lock_piece g) else g
    else { g with lock_timer := 0 }
  if g.drop_timer ≥ g.drop_interval then soft_drop { g with drop_timer := 0 } else g

/-- `TetrisGame.update(dt)`: key-repeat movement, then timers, lock-delay
handling and auto soft drop. -/
def update (keysLeft keysRight : Bool) (newBag : List Shape) (dt : ℚ)
    (g : TetrisGame) : TetrisGame :=
  updateGravity newBag dt (updateHorizontal keysLeft keysRight dt g)

/-- The engine states reachable from a freshly constructed game by the public
commands (the shuffle outcomes and pressed-key snapshots are arbitrary). -/
inductive Reachable : TetrisGame → Prop
  | init (s1 s2 : List Shape) : Reachable (initGame s1 s2)
  | move (dx dy : Int) (g : TetrisGame) : Reachable g → Reachable (move_piece dx dy g)
  | rot (direction : Int) (g : TetrisGame) : Reachable g →
      Reachable (rotate_piece direction g)
  | soft (g : TetrisGame) : Reachable g → Reachable (soft_drop g)
  | hard (nb : List Shape) (g : TetrisGame) : Reachable g → Reachable (hard_drop nb g)
  | hold (nb : List Shape) (g : TetrisGame) : Reachable g → Reachable (hold_piece nb g)
  | tick (kl kr : Bool) (nb : List Shape) (dt : ℚ) (g : TetrisGame) : Reachable g →
      Reachable (update kl kr nb dt g)

/-- The active-piece safety invariant: while the game is running, the current
piece is at a valid position. -/
def Inv (g : TetrisGame) : Prop :=
  g.running = true → _is_valid_position g.board g.current_piece = true

/-- Positions of the entries of a list satisfying `P`, in ascending order
(recursive form of the `full_rows` index scan, used to reason about the
removal loop of `clear_lines`). -/
def idxsWhere (P : α → Bool) : List α → List Nat
  | [] => []
  | a :: t => if P a then 0 :: (idxsWhere P t).map (· + 1)
              else (idxsWhere P t).map (· + 1)

/-! Concrete states used by witnesses and counterexamples. -/

/-- A freshly constructed game whose two initial bags came out unshuffled. -/
def wGame : TetrisGame := initGame shapeKeys shapeKeys

/-- Fresh game with the current I-piece moved to the bottom row. -/
def wBottomI : TetrisGame :=
  { wGame with current_piece := { mkTetromino Shape.I with y := 19 } }

/-- Fresh game whose current piece is a Z at the spawn position. -/
def wZ : TetrisGame := { wGame with current_piece := mkTetromino Shape.Z }

/-- Fresh game, current I-piece grounded at the bottom, slow gravity. -/
def wTick : TetrisGame :=
  { wGame with current_piece := { mkTetromino Shape.I with y := 19 },
               drop_interval := 100 }

/-- A fully occupied row. -/
def wFullRow : List (Option Color) := List.replicate GRID_WIDTH (some (1, 1, 1))

/-- Fresh game whose board has exactly rows 2 and 5 fully occupied. -/
def wClear : TetrisGame :=
  { wGame with board := (emptyBoard.set 2 wFullRow).set 5 wFullRow }

/-- Fresh game with one occupied cell at (3, 0), blocking the next spawn. -/
def wPreOver : TetrisGame :=
  { wGame with board := emptyBoard.set 0 (emptyRow.set 3 (some (9, 9, 9))) }

/-- The game-over state produced by spawning onto the blocked cell. -/
def wOver : TetrisGame := spawn_new_piece [] wPreOver

/-- Fresh game with a queue of exactly 7 upcoming pieces. -/
def wSeven : TetrisGame := { wGame with upcoming_pieces := shapeKeys.map mkTetromino }

/-- A Z-piece in rotation state 1 at the spawn anchor: its block list contains
the off-screen cell (4, -1). -/
def wZRot1 : Tetromino := { mkTetromino Shape.Z with rotation_index := 1 }

/-! ### Shared helper lemmas -/

/-- Every rotation state of every shape has 4 cells, each with row offset
≥ -1 (finite table check). -/
theorem rotation_table_facts :
    ∀ s : Shape, ∀ n < 4, ((TETROMINOES s).getD n []).length = 4 ∧
      ∀ c ∈ (TETROMINOES s).getD n [], -1 ≤ c.2 := by decide

theorem tetromino_table_length (s : Shape) : (TETROMINOES s).length = 4 := by
  cases s <;> rfl

theorem rotation_toNat_lt (p : Tetromino) :
    (p.rotation_index % ((TETROMINOES p.shape).length : Int)).toNat < 4 := by
  rw [tetromino_table_length]
  omega

theorem get_blocks_length (p : Tetromino) : p.get_blocks.length = 4 := by
  unfold Tetromino.get_blocks
  simp only [List.length_map]
  exact (rotation_table_facts p.shape _ (rotation_toNat_lt p)).1

/-- Every block of a piece at a valid position lies inside the 10×20 grid. -/
theorem valid_blocks_in_range (b : Board) (p : Tetromino)
    (h : _is_valid_position b p = true) :
    ∀ c ∈ p.get_blocks, 0 ≤ c.1 ∧ c.1 < (GRID_WIDTH : Int) ∧
      0 ≤ c.2 ∧ c.2 < (GRID_HEIGHT : Int) := by
  unfold _is_valid_position at h
  rw [List.all_eq_true] at h
  intro c hc
  have := h c hc
  simp only [Bool.and_eq_true, decide_eq_true_eq] at this
  exact ⟨this.1.1.1.1, this.1.1.1.2, this.1.1.2, this.1.2⟩

theorem valid_y_le (b : Board) (p : Tetromino)
    (h : _is_valid_position b p = true) : p.y ≤ 20 := by
  have hlen := get_blocks_length p
  obtain ⟨c, hc⟩ : ∃ c, c ∈ p.get_blocks := by
    rcases hb : p.get_blocks with _ | ⟨a, t⟩
    · rw [hb] at hlen; simp at hlen
    · exact ⟨a, hb ▸ List.mem_cons_self a t⟩
  have hcy : c.2 < (GRID_HEIGHT : Int) := (valid_blocks_in_range b p h c hc).2.2.2
  unfold Tetromino.get_blocks at hc
  simp only [List.mem_map] at hc
  obtain ⟨off, hoff, hceq⟩ := hc
  have hge : -1 ≤ off.2 :=
    (rotation_table_facts p.shape _ (rotation_toNat_lt p)).2 off hoff
  have : c.2 = p.y + off.2 := by rw [← hceq]
  simp only [GRID_HEIGHT] at hcy
  omega

theorem pyGet_nonneg (l : List α) (i : Int) (d : α) (h : 0 ≤ i) :
    pyGet l i d = l.getD i.toNat d := by
  simp [pyGet, h]

theorem boardCell_nonneg (b : Board) (x y : Int) (hx : 0 ≤ x) (hy : 0 ≤ y) :
    boardCell b x y = (b.getD y.toNat []).getD x.toNat none := by
  simp [boardCell, pyGet_nonneg, hx, hy]

theorem getD_set_of_lt (l : List α) (i j : Nat) (v d : α) (hj : j < l.length) :
    (l.set i v).getD j d = if i = j then v else l.getD j d := by
  have hj' : j < (l.set i v).length := by simpa using hj
  rw [List.getD_eq_getElem _ _ hj', List.getElem_set hj']
  split
  · rfl
  · rw [List.getD_eq_getElem _ _ hj]

/-! ### C2: atomicity of rejected move / rotate / soft-drop -/

/-- C2.  Rejection of move, rotate and soft-drop is atomic: whenever the
shifted / rotated / dropped placement of the active piece is invalid, the call
returns the state completely unchanged (anchor, rotation index, board, and
every other field), and — being a total function — surfaces no error. -/
theorem rejected_commands_atomic (g1 g2 g3 : TetrisGame) (dx dy direction : Int)
    (hm : _is_valid_position g1.board
      { g1.current_piece with x := g1.current_piece.x + dx,
                              y := g1.current_piece.y + dy } = false)
    (hr : _is_valid_position g2.board (g2.current_piece.rotate direction) = false)
    (hs : _is_valid_position g3.board
      { g3.current_piece with y := g3.current_piece.y + 1 } = false) :
    move_piece dx dy g1 = g1 ∧ rotate_piece direction g2 = g2 ∧ soft_drop g3 = g3 := by
  refine ⟨?_, ?_, ?_⟩
  · simp [move_piece, hm]
  · simp [rotate_piece, hr]
  · simp [soft_drop, hs]

/-- Witness for C2 at concrete states: moving the fresh I-piece 4 columns
left, rotating a fresh Z-piece, and soft-dropping an I-piece on the bottom row
are all invalid, and each command returns its state unchanged. -/
theorem rejected_commands_atomic_witness :
    (_is_valid_position wGame.board
      { wGame.current_piece with x := wGame.current_piece.x + (-4),
                                 y := wGame.current_piece.y + 0 } = false)
  ∧ (_is_valid_position wZ.board (wZ.current_piece.rotate 1) = false)
  ∧ (_is_valid_position wBottomI.board
      { wBottomI.current_piece with y := wBottomI.current_piece.y + 1 } = false)
  ∧ (move_piece (-4) 0 wGame = wGame ∧ rotate_piece 1 wZ = wZ ∧
      soft_drop wBottomI = wBottomI) :=
  ⟨by decide, by decide, by decide,
   rejected_commands_atomic wGame wZ wBottomI (-4) 0 1
     (by decide) (by decide) (by decide)⟩

/-! ### C10: a Z-piece anchored at row 0 can never rotate -/

/-- A Z-piece whose (reduced) rotation index is 1 or 3 has the block
(x+1, y-1) — the cell offset (1, -1) of rotation states 1 and 3. -/
theorem z_odd_rotation_block (p : Tetromino) (hs : p.shape = Shape.Z)
    (hodd : p.rotation_index % 4 = 1 ∨ p.rotation_index % 4 = 3) :
    (p.x + 1, p.y + -1) ∈ p.get_blocks := by
  unfold Tetromino.get_blocks
  rw [List.mem_map]
  refine ⟨(1, -1), ?_, rfl⟩
  have h4 : ((TETROMINOES p.shape).length : Int) = 4 := by
    rw [tetromino_table_length]; rfl
  rw [h4]
  rcases hodd with h | h <;>
    · rw [h, hs]
      decide

/-- C10.  For every board, an active Z-kind piece anchored at row 0 (hence,
being at a valid position, necessarily in rotation state 0 or 2) cannot
rotate: both `rotate_piece 1` and `rotate_piece (-1)` produce rotation state
1 or 3, whose cell offset (1, -1) yields a block at row -1, so the rotation
is rejected and the state is returned unchanged. -/
theorem z_piece_cannot_rotate_at_top (g : TetrisGame) (direction : Int)
    (hshape : g.current_piece.shape = Shape.Z)
    (hy : g.current_piece.y = 0)
    (hvalid : _is_valid_position g.board g.current_piece = true)
    (hdir : direction = 1 ∨ direction = -1) :
    rotate_piece direction g = g := by
  -- the current (reduced) rotation index is even
  have heven : g.current_piece.rotation_index % 4 = 0 ∨
      g.current_piece.rotation_index % 4 = 2 := by
    by_contra hcon
    push_neg at hcon
    have hodd : g.current_piece.rotation_index % 4 = 1 ∨
        g.current_piece.rotation_index % 4 = 3 := by omega
    have hmem := z_odd_rotation_block g.current_piece hshape hodd
    have := (valid_blocks_in_range g.board g.current_piece hvalid _ hmem).2.2.1
    omega
  -- the rotated piece has rotation index 1 or 3 (already reduced mod 4)
  set p := g.current_piece.rotate direction with hp
  have hps : p.shape = Shape.Z := hshape
  have hpy : p.y = g.current_piece.y := rfl
  have hpodd : p.rotation_index % 4 = 1 ∨ p.rotation_index % 4 = 3 := by
    have h4 : ((TETROMINOES g.current_piece.shape).length : Int) = 4 := by
      rw [tetromino_table_length]; rfl
    have hpr : p.rotation_index =
        (g.current_piece.rotation_index + direction) % 4 := by
      rw [hp]
      unfold Tetromino.rotate
      rw [h4]
    rw [hpr]
    omega
  -- so the rotated piece has a block at row -1 and is invalid
  have hmem := z_odd_rotation_block p hps hpodd
  have hinvalid : _is_valid_position g.board p = false := by
    rcases hv : _is_valid_position g.board p with _ | _
    · rfl
    · have := (valid_blocks_in_range g.board p hv _ hmem).2.2.1
      rw [hpy, hy] at this
      omega
  simp [rotate_piece, ← hp, hinvalid]

/-- Witness for C10: the fresh Z-piece at the spawn anchor (row 0) on the
empty board cannot rotate clockwise. -/
theorem z_piece_cannot_rotate_at_top_witness :
    (wZ.current_piece.shape = Shape.Z ∧ wZ.current_piece.y = 0 ∧
      _is_valid_position wZ.board wZ.current_piece = true) ∧
    rotate_piece 1 wZ = wZ :=
  ⟨⟨by decide, by decide, by decide⟩,
   z_piece_cannot_rotate_at_top wZ 1 (by decide) (by decide) (by decide)
     (Or.inl rfl)⟩

/-! ### C8: exact frame effect of the lock commit -/

/-- One step of the commit fold: writing block `c` changes an in-range cell
(x, y) exactly when `c = (x, y)`. -/
theorem commit_step_cell (b : Board) (c : Int × Int) (color : Color) (x y : Int)
    (hlen : b.length = GRID_HEIGHT) (hrows : ∀ r ∈ b, r.length = GRID_WIDTH)
    (hx0 : 0 ≤ x) (hx1 : x < (GRID_WIDTH : Int))
    (hy0 : 0 ≤ y) (hy1 : y < (GRID_HEIGHT : Int)) :
    boardCell
      (if 0 ≤ c.2 ∧ c.2 < (GRID_HEIGHT : Int) ∧ 0 ≤ c.1 ∧ c.1 < (GRID_WIDTH : Int)
       then b.set c.2.toNat ((b.getD c.2.toNat []).set c.1.toNat (some color))
       else b) x y =
    if c = (x, y) then some color else boardCell b x y := by
  simp only [GRID_WIDTH, GRID_HEIGHT] at hx1 hy1
  have hylt : y.toNat < b.length := by rw [hlen]; simp only [GRID_HEIGHT]; omega
  have hrowlen : ∀ i : Nat, i < b.length → (b.getD i []).length = GRID_WIDTH := by
    intro i hi
    rw [List.getD_eq_getElem _ _ hi]
    exact hrows _ (List.getElem_mem hi)
  by_cases hcr : 0 ≤ c.2 ∧ c.2 < (GRID_HEIGHT : Int) ∧ 0 ≤ c.1 ∧ c.1 < (GRID_WIDTH : Int)
  · rw [if_pos hcr]
    obtain ⟨hc2, hc2', hc1, hc1'⟩ := hcr
    simp only [GRID_WIDTH, GRID_HEIGHT] at hc1' hc2'
    rw [boardCell_nonneg _ _ _ hx0 hy0, boardCell_nonneg _ _ _ hx0 hy0]
    rw [getD_set_of_lt _ _ _ _ _ hylt]
    by_cases hyy : c.2.toNat = y.toNat
    · rw [if_pos hyy]
      have hxlt : x.toNat < (b.getD c.2.toNat []).length := by
        rw [hrowlen c.2.toNat (by omega)]
        simp only [GRID_WIDTH]; omega
      rw [getD_set_of_lt _ _ _ _ _ hxlt]
      by_cases hxx : c.1.toNat = x.toNat
      · rw [if_pos hxx]
        have : c = (x, y) := by
          have : c.1 = x ∧ c.2 = y := by omega
          exact Prod.ext this.1 this.2
        rw [if_pos this]
      · rw [if_neg hxx]
        have hne : ¬ c = (x, y) := by
          intro hcxy
          rw [hcxy] at hxx
          exact hxx rfl
        rw [if_neg hne]
        have : c.2 = y := by omega
        rw [this]
    · rw [if_neg hyy]
      have hne : ¬ c = (x, y) := by
        intro hcxy
        rw [hcxy] at hyy
        exact hyy rfl
      rw [if_neg hne]
  · rw [if_neg hcr]
    have hne : ¬ c = (x, y) := by
      intro hcxy
      rw [hcxy] at hcr
      simp only [GRID_WIDTH, GRID_HEIGHT] at hcr
      omega
    rw [if_neg hne]

/-- One step of the commit fold preserves board well-formedness. -/
theorem commit_step_wf (b : Board) (c : Int × Int) (color : Color)
    (hlen : b.length = GRID_HEIGHT) (hrows : ∀ r ∈ b, r.length = GRID_WIDTH) :
    (if 0 ≤ c.2 ∧ c.2 < (GRID_HEIGHT : Int) ∧ 0 ≤ c.1 ∧ c.1 < (GRID_WIDTH : Int)
     then b.set c.2.toNat ((b.getD c.2.toNat []).set c.1.toNat (some color))
     else b).length = GRID_HEIGHT ∧
    ∀ r ∈ (if 0 ≤ c.2 ∧ c.2 < (GRID_HEIGHT : Int) ∧ 0 ≤ c.1 ∧ c.1 < (GRID_WIDTH : Int)
       then b.set c.2.toNat ((b.getD c.2.toNat []).set c.1.toNat (some color))
       else b), r.length = GRID_WIDTH := by
  by_cases hcr : 0 ≤ c.2 ∧ c.2 < (GRID_HEIGHT : Int) ∧ 0 ≤ c.1 ∧ c.1 < (GRID_WIDTH : Int)
  · rw [if_pos hcr]
    refine ⟨by simpa using hlen, ?_⟩
    intro r hr
    rcases List.mem_or_eq_of_mem_set hr with h | h
    · exact hrows _ h
    · rw [h, List.length_set]
      have hi : c.2.toNat < b.length := by
        rw [hlen]
        simp only [GRID_HEIGHT] at hcr ⊢
        omega
      rw [List.getD_eq_getElem _ _ hi]
      exact hrows _ (List.getElem_mem hi)
  · rw [if_neg hcr]
    exact ⟨hlen, hrows⟩

theorem commitBlocks_cell (blocks : List (Int × Int)) (color : Color) (x y : Int)
    (hx0 : 0 ≤ x) (hx1 : x < (GRID_WIDTH : Int))
    (hy0 : 0 ≤ y) (hy1 : y < (GRID_HEIGHT : Int)) :
    ∀ b : Board, b.length = GRID_HEIGHT → (∀ r ∈ b, r.length = GRID_WIDTH) →
      boardCell (commitBlocks b blocks color) x y =
        if (x, y) ∈ blocks then some color else boardCell b x y := by
  induction blocks with
  | nil =>
      intro b _ _
      simp [commitBlocks]
  | cons c rest ih =>
      intro b hlen hrows
      have hwf := commit_step_wf b c color hlen hrows
      have hfold : commitBlocks b (c :: rest) color =
          commitBlocks
            (if 0 ≤ c.2 ∧ c.2 < (GRID_HEIGHT : Int) ∧ 0 ≤ c.1 ∧ c.1 < (GRID_WIDTH : Int)
             then b.set c.2.toNat ((b.getD c.2.toNat []).set c.1.toNat (some color))
             else b) rest color := rfl
      rw [hfold, ih _ hwf.1 hwf.2,
        commit_step_cell b c color x y hlen hrows hx0 hx1 hy0 hy1]
      by_cases hm : (x, y) ∈ rest
      · simp [hm]
      · by_cases hc : c = (x, y)
        · simp [hm, hc, List.mem_cons]
        · have hc' : ¬ (x, y) = c := fun h => hc h.symm
          simp [hm, hc, hc', List.mem_cons]

/-- C8.  Locking commits exactly the in-range blocks: for every board of the
engine's dimensions and every in-range coordinate (x, y), the committed board
holds the piece color at (x, y) iff (x, y) is one of the piece's blocks, and
otherwise retains the previous cell contents; blocks with y < 0 are silently
skipped by the range guard (the fold is total — no error is raised), so a
piece can commit partially above the top of the grid.  `lock_piece` is this
commit followed by the line-clear pass. -/
theorem lock_commit_exact_cells (b : Board) (blocks : List (Int × Int))
    (color : Color) (x y : Int)
    (hlen : b.length = GRID_HEIGHT) (hrows : ∀ r ∈ b, r.length = GRID_WIDTH)
    (hx0 : 0 ≤ x) (hx1 : x < (GRID_WIDTH : Int))
    (hy0 : 0 ≤ y) (hy1 : y < (GRID_HEIGHT : Int)) :
    (boardCell (commitBlocks b blocks color) x y =
      if (x, y) ∈ blocks then some color else boardCell b x y)
  ∧ (∀ g : TetrisGame, lock_piece g = clear_lines { g with
      board := commitBlocks g.board g.current_piece.get_blocks g.current_piece.color }) :=
  ⟨commitBlocks_cell blocks color x y hx0 hx1 hy0 hy1 b hlen hrows,
   fun _ => rfl⟩

/-- Witness for C8: committing the Z-piece in rotation 1 at the spawn anchor
(blocks (4,-1), (4,0), (3,0), (3,1)) onto the empty board writes color at
(4, 0) (a member block) and leaves (0, 0) empty (a non-member cell); the
block at row -1 is skipped without error. -/
theorem lock_commit_exact_cells_witness :
    (emptyBoard.length = GRID_HEIGHT ∧ ((4 : Int), (-1 : Int)) ∈ wZRot1.get_blocks)
  ∧ (boardCell (commitBlocks emptyBoard wZRot1.get_blocks (5, 5, 5)) 4 0 =
      if ((4 : Int), (0 : Int)) ∈ wZRot1.get_blocks then some (5, 5, 5)
      else boardCell emptyBoard 4 0)
  ∧ (boardCell (commitBlocks emptyBoard wZRot1.get_blocks (5, 5, 5)) 0 0 =
      if ((0 : Int), (0 : Int)) ∈ wZRot1.get_blocks then some (5, 5, 5)
      else boardCell emptyBoard 0 0) :=
  ⟨⟨by decide, by decide⟩,
   (lock_commit_exact_cells emptyBoard wZRot1.get_blocks (5, 5, 5) 4 0
     (by decide) (by decide) (by decide) (by decide) (by decide) (by decide)).1,
   (lock_commit_exact_cells emptyBoard wZRot1.get_blocks (5, 5, 5) 0 0
     (by decide) (by decide) (by decide) (by decide) (by decide) (by decide)).1⟩

/-! ### C1: the line-clear pass -/

theorem idxsWhere_length (P : α → Bool) :
    ∀ l : List α, (idxsWhere P l).length = l.countP P := by
  intro l
  induction l with
  | nil => rfl
  | cons a t ih =>
      rcases hP : P a with _ | _
      · rw [idxsWhere, if_neg (by simp [hP]), List.length_map, ih,
          List.countP_cons_of_neg _ _ (by simp [hP])]
      · rw [idxsWhere, if_pos hP, List.length_cons, List.length_map, ih,
          List.countP_cons_of_pos _ _ hP]

/-- The scan `[i for i in range(len(l)) if P(l[i])]` equals the recursive
ascending index list. -/
theorem range_filter_eq_idxsWhere (P : α → Bool) (d : α) :
    ∀ l : List α,
      (List.range l.length).filter (fun i => P (l.getD i d)) = idxsWhere P l := by
  intro l
  induction l with
  | nil => rfl
  | cons a t ih =>
      rw [List.length_cons, List.range_succ_eq_map, List.filter_cons]
      have hmap : ((List.range t.length).map Nat.succ).filter
          (fun i => P ((a :: t).getD i d)) =
          ((List.range t.length).filter (fun i => P (t.getD i d))).map Nat.succ := by
        induction (List.range t.length) with
        | nil => rfl
        | cons n r ihr =>
            rw [List.map_cons, List.filter_cons, List.filter_cons]
            simp only [List.getD_cons_succ]
            by_cases hn : P (t.getD n d) = true
            · rw [if_pos hn, if_pos hn, List.map_cons, ihr]
            · rw [if_neg hn, if_neg hn, ihr]
      rw [hmap, ih]
      simp only [List.getD_cons_zero]
      by_cases hP : P a = true
      · rw [if_pos hP, idxsWhere, if_pos hP]
      · rw [if_neg hP, idxsWhere, if_neg hP]

theorem eraseIdx_append_middle (r : α) :
    ∀ (pre t : List α), (pre ++ r :: t).eraseIdx pre.length = pre ++ t := by
  intro pre
  induction pre with
  | nil => intro t; rfl
  | cons a p ih => intro t; simp only [List.cons_append, List.length_cons,
      List.eraseIdx_cons_succ, ih]

/-- The removal loop of `clear_lines`: folding
`del board[i]; board.insert(0, empty)` over the ascending indices of the rows
satisfying `P` (shifted past a `P`-free prefix) replaces those rows by empty
rows prepended at the top, preserving the relative order of the others. -/
theorem clear_fold (P : List (Option Color) → Bool) (e : List (Option Color))
    (hE : P e = false) :
    ∀ (b pre : List (List (Option Color))), (∀ r ∈ pre, P r = false) →
      List.foldl (fun acc i => e :: acc.eraseIdx i) (pre ++ b)
        ((idxsWhere P b).map (· + pre.length)) =
      List.replicate (b.countP P) e ++ pre ++ b.filter (fun r => !(P r)) := by
  intro b
  induction b with
  | nil =>
      intro pre _
      simp [idxsWhere]
  | cons r t ih =>
      intro pre hpre
      rcases hP : P r with _ | _
      · -- row not full: absorb it into the prefix
        rw [idxsWhere, if_neg (by simp [hP])]
        have hidx : ((idxsWhere P t).map (· + 1)).map (· + pre.length) =
            (idxsWhere P t).map (· + (pre ++ [r]).length) := by
          rw [List.map_map]
          apply List.map_congr_left
          intro i _
          simp only [Function.comp_apply, List.length_append, List.length_singleton]
          omega
        have hlist : pre ++ r :: t = (pre ++ [r]) ++ t := by
          rw [List.append_assoc, List.singleton_append]
        rw [hidx, hlist, ih (pre ++ [r]) ?_]
        · rw [List.countP_cons_of_neg _ _ (by simp [hP]),
            List.filter_cons_of_pos (by simp [hP])]
          simp [List.append_assoc]
        · intro q hq
          rcases List.mem_append.mp hq with h | h
          · exact hpre q h
          · rw [List.mem_singleton.mp h]; exact hP
      · -- full row: first step deletes it and prepends an empty row
        rw [idxsWhere, if_pos hP, List.map_cons, List.foldl_cons,
          Nat.zero_add, eraseIdx_append_middle]
        have hidx : ((idxsWhere P t).map (· + 1)).map (· + pre.length) =
            (idxsWhere P t).map (· + (e :: pre).length) := by
          rw [List.map_map]
          apply List.map_congr_left
          intro i _
          simp only [Function.comp_apply, List.length_cons]
          omega
        have hlist : e :: (pre ++ t) = (e :: pre) ++ t := rfl
        rw [hidx, hlist, ih (e :: pre) ?_]
        · rw [List.countP_cons_of_pos _ _ hP,
            List.filter_cons_of_neg (by simp [hP]),
            List.replicate_succ' (t.countP P) e]
          simp [List.append_assoc]
        · intro q hq
          rcases List.mem_cons.mp hq with h | h
          · rw [h]; exact hE
          · exact hpre q h

/-- C1.  One call to `clear_lines` removes exactly the rows in which all
GRID_WIDTH cells are occupied — the set of removed rows is determined by the
pre-removal board (`full_rows` is computed before any deletion) — inserts an
equal number of empty rows at row 0, preserves the relative order of the
previously-non-full rows, and adds the number of removed rows to
`lines_cleared`; all other fields are unchanged. -/
theorem clear_lines_clears_full_rows (g : TetrisGame)
    (hlen : g.board.length = GRID_HEIGHT) :
    clear_lines g = { g with
      board := List.replicate (g.board.countP rowFull) emptyRow ++
               g.board.filter (fun r => !(rowFull r)),
      lines_cleared := g.lines_cleared + g.board.countP rowFull } := by
  have hscan : (List.range GRID_HEIGHT).filter
      (fun row_idx => rowFull (g.board.getD row_idx [])) = idxsWhere rowFull g.board := by
    rw [← hlen, range_filter_eq_idxsWhere]
  have hE : rowFull emptyRow = false := by decide
  have hfold := clear_fold rowFull emptyRow hE g.board [] (by intro r h; cases h)
  simp only [List.nil_append, List.append_nil] at hfold
  have hmap : (idxsWhere rowFull g.board).map (· + List.length ([] : Board)) =
      idxsWhere rowFull g.board := by
    simp
  rw [hmap] at hfold
  simp only [clear_lines]
  rw [hscan, hfold, idxsWhere_length]

/-- Witness for C1: on a fresh game whose board has exactly rows 2 and 5
fully occupied, `clear_lines` removes those two rows, prepends two empty
rows, and adds 2 to the counter. -/
theorem clear_lines_clears_full_rows_witness :
    (wClear.board.length = GRID_HEIGHT)
  ∧ clear_lines wClear = { wClear with
      board := List.replicate (wClear.board.countP rowFull) emptyRow ++
               wClear.board.filter (fun r => !(rowFull r)),
      lines_cleared := wClear.lines_cleared + wClear.board.countP rowFull } :=
  ⟨by decide, clear_lines_clears_full_rows wClear (by decide)⟩

/-! ### C4: hold twice in succession -/

/-- C4 counterexample.  From a fresh game (empty held slot), `hold()` twice in
direct succession is NOT a no-op on the second call: the first hold stashes
the current piece and internally spawns, and `spawn_new_piece` resets
`hold_used_this_turn` to false, so the second hold performs a swap and changes
the held slot (I-piece after one hold, O-piece after two). -/
theorem hold_twice_swaps_counterexample :
    wGame.held_piece = none
  ∧ (hold_piece [] wGame).held_piece = some (mkTetromino Shape.I)
  ∧ (hold_piece [] (hold_piece [] wGame)).held_piece = some (mkTetromino Shape.O)
  ∧ hold_piece [] (hold_piece [] wGame) ≠ hold_piece [] wGame := by
  refine ⟨rfl, by decide, by decide, by decide⟩

/-- C4 amended.  `hold()` is a no-op whenever `hold_used_this_turn` is already
true, and calling `hold()` twice in succession is a no-op on the second call
whenever the held slot was occupied before the first call (swap branch, which
leaves the flag set).  (When the held slot was empty, the internal spawn of
the first hold resets the flag, and the second call performs a swap.) -/
theorem hold_noop_guard (g : TetrisGame) (nb1 nb2 : List Shape)
    (hsome : g.held_piece.isSome = true) :
    (∀ nb : List Shape, ∀ h : TetrisGame, h.hold_used_this_turn = true →
      hold_piece nb h = h)
  ∧ hold_piece nb2 (hold_piece nb1 g) = hold_piece nb1 g := by
  have hguard : ∀ nb : List Shape, ∀ h : TetrisGame, h.hold_used_this_turn = true →
      hold_piece nb h = h := by
    intro nb h hh
    simp [hold_piece, hh]
  refine ⟨hguard, ?_⟩
  obtain ⟨held, hheld⟩ := Option.isSome_iff_exists.mp hsome
  by_cases hu : g.hold_used_this_turn = true
  · rw [hguard nb1 g hu]
    exact hguard nb2 g hu
  · have hu' : (hold_piece nb1 g).hold_used_this_turn = true := by
      simp only [hold_piece, hu, Bool.false_eq_true, if_false, hheld]
      split <;> rfl
    exact hguard nb2 _ hu'

/-- Witness for C4's amended statement: on the state after one hold from a
fresh game the held slot is occupied, and a further pair of holds leaves the
state fixed on the second of the pair. -/
theorem hold_noop_guard_witness :
    ((hold_piece [] wGame).held_piece.isSome = true)
  ∧ hold_piece [] (hold_piece [] (hold_piece [] wGame)) =
      hold_piece [] (hold_piece [] wGame) :=
  ⟨by decide, (hold_noop_guard (hold_piece [] wGame) [] [] (by decide)).2⟩

/-! ### C3: behaviour of commands after game over -/

/-- C3 counterexample.  `wOver` is a game-over state produced by a spawn onto
an occupied cell (the claim's terminal-transition premise), yet `move_piece`
is not a no-op there: the spawned O-piece slides one column right, mutating
the active piece.  `hard_drop` even mutates the board and pops the bag queue
after game over. -/
theorem game_over_commands_still_mutate_counterexample :
    wOver.running = false
  ∧ move_piece 1 0 wOver ≠ wOver
  ∧ (move_piece 1 0 wOver).current_piece.x = 4
  ∧ (hard_drop [] wOver).board ≠ wOver.board
  ∧ (hard_drop [] wOver).upcoming_pieces ≠ wOver.upcoming_pieces := by
  have hfall : fallWhileValid wOver.board wOver.current_piece = wOver.current_piece := by
    rw [fallWhileValid, dif_neg]
    intro h
    exact absurd h (by decide)
  refine ⟨by decide, by decide, by decide, ?_, ?_⟩
  · simp only [hard_drop, hfall]
    decide
  · simp only [hard_drop, hfall]
    decide

theorem move_piece_mask (dx dy : Int) (g : TetrisGame) (b : Bool) :
    { move_piece dx dy { g with running := b } with running := true } =
      { move_piece dx dy g with running := true } := by
  simp only [move_piece]
  split_ifs <;> rfl

theorem rotate_piece_mask (direction : Int) (g : TetrisGame) (b : Bool) :
    { rotate_piece direction { g with running := b } with running := true } =
      { rotate_piece direction g with running := true } := by
  simp only [rotate_piece]
  split_ifs <;> rfl

theorem soft_drop_mask (g : TetrisGame) (b : Bool) :
    { soft_drop { g with running := b } with running := true } =
      { soft_drop g with running := true } := by
  simp only [soft_drop]
  split_ifs <;> rfl

theorem spawn_mask (nb : List Shape) (g : TetrisGame) (b : Bool) :
    { spawn_new_piece nb { g with running := b } with running := true } =
      { spawn_new_piece nb g with running := true } := by
  simp only [spawn_new_piece, _generate_new_bag]
  split_ifs <;> rfl

theorem hold_mask (nb : List Shape) (g : TetrisGame) (b : Bool) :
    { hold_piece nb { g with running := b } with running := true } =
      { hold_piece nb g with running := true } := by
  simp only [hold_piece, spawn_new_piece, _generate_new_bag]
  by_cases hu : g.hold_used_this_turn = true
  · simp [hu]
  · simp only [hu, Bool.false_eq_true, if_false]
    rcases hheld : g.held_piece with _ | held <;>
      · simp only [hheld]
        split_ifs <;> rfl

theorem hard_drop_mask (nb : List Shape) (g : TetrisGame) (b : Bool) :
    { hard_drop nb { g with running := b } with running := true } =
      { hard_drop nb g with running := true } := by
  simp only [hard_drop, lock_piece, clear_lines, spawn_new_piece, _generate_new_bag]
  split_ifs <;> rfl

theorem updateHorizontal_mask (kl kr : Bool) (dt : ℚ) (g : TetrisGame) (b : Bool) :
    { updateHorizontal kl kr dt { g with running := b } with running := true } =
      { updateHorizontal kl kr dt g with running := true } := by
  simp only [updateHorizontal, move_piece]
  split_ifs <;> rfl

theorem maskEq_expand (g1 g2 : TetrisGame)
    (h : { g1 with running := true } = { g2 with running := true }) :
    g1 = { g2 with running := g1.running } := by
  cases g1
  cases g2
  simp only [TetrisGame.mk.injEq] at h ⊢
  simp_all

theorem lock_mask (g : TetrisGame) (b : Bool) :
    { lock_piece { g with running := b } with running := true } =
      { lock_piece g with running := true } := by
  simp only [lock_piece, clear_lines]

theorem lock_mask_congr (g1 g2 : TetrisGame)
    (h : { g1 with running := true } = { g2 with running := true }) :
    { lock_piece g1 with running := true } = { lock_piece g2 with running := true } := by
  rw [maskEq_expand g1 g2 h]
  exact lock_mask g2 g1.running

theorem spawn_mask_congr (nb : List Shape) (g1 g2 : TetrisGame)
    (h : { g1 with running := true } = { g2 with running := true }) :
    { spawn_new_piece nb g1 with running := true } =
      { spawn_new_piece nb g2 with running := true } := by
  rw [maskEq_expand g1 g2 h]
  exact spawn_mask nb g2 g1.running

theorem soft_mask_congr (g1 g2 : TetrisGame)
    (h : { g1 with running := true } = { g2 with running := true }) :
    { soft_drop g1 with running := true } = { soft_drop g2 with running := true } := by
  rw [maskEq_expand g1 g2 h]
  exact soft_drop_mask g2 g1.running

theorem updateGravity_mask (nb : List Shape) (dt : ℚ) (g : TetrisGame) (b : Bool) :
    { updateGravity nb dt { g with running := b } with running := true } =
      { updateGravity nb dt g with running := true } := by
  by_cases hgr : is_on_ground g.board g.current_piece = true
  · by_cases hlk : g.lock_timer + dt ≥ LOCK_DELAY
    · simp only [updateGravity, hgr, if_true, hlk]
      have hA : { spawn_new_piece nb (lock_piece { g with
            drop_timer := g.drop_timer + dt, total_time := g.total_time + dt,
            lock_timer := g.lock_timer + dt, running := b }) with running := true } =
          { spawn_new_piece nb (lock_piece { g with
            drop_timer := g.drop_timer + dt, total_time := g.total_time + dt,
            lock_timer := g.lock_timer + dt }) with running := true } :=
        spawn_mask_congr nb _ _ (lock_mask_congr _ _ rfl)
      have hAexp := maskEq_expand _ _ hA
      rw [hAexp]
      dsimp only
      split_ifs <;> first | rfl | exact soft_mask_congr _ _ rfl
    · simp only [updateGravity, hgr, if_true, hlk, if_false]
      split_ifs <;> first | rfl | exact soft_mask_congr _ _ rfl
  · rw [Bool.not_eq_true] at hgr
    simp only [updateGravity, hgr, Bool.false_eq_true, if_false]
    split_ifs <;> first | rfl | exact soft_mask_congr _ _ rfl

theorem updateGravity_mask_congr (nb : List Shape) (dt : ℚ) (g1 g2 : TetrisGame)
    (h : { g1 with running := true } = { g2 with running := true }) :
    { updateGravity nb dt g1 with running := true } =
      { updateGravity nb dt g2 with running := true } := by
  rw [maskEq_expand g1 g2 h]
  exact updateGravity_mask nb dt g2 _

theorem update_mask (kl kr : Bool) (nb : List Shape) (dt : ℚ) (g : TetrisGame)
    (b : Bool) :
    { update kl kr nb dt { g with running := b } with running := true } =
      { update kl kr nb dt g with running := true } := by
  show { updateGravity nb dt (updateHorizontal kl kr dt { g with running := b })
          with running := true } =
       { updateGravity nb dt (updateHorizontal kl kr dt g) with running := true }
  exact updateGravity_mask_congr nb dt _ _ (updateHorizontal_mask kl kr dt g b)

/-- C3 amended.  After the transition to game over, the engine's command
functions do NOT consult the terminal flag: overwriting the flag in the
result, every command computes exactly the same state whatever the flag's
prior value was, so commands issued after game over still execute their
normal logic and can mutate Board, Piece and Bag (see the counterexample).
In the program it is the host loop — which exits once `running` is false —
that stops dispatching commands, not the engine. -/
theorem commands_ignore_game_over_flag (g : TetrisGame) (dx dy direction : Int)
    (nb : List Shape) (kl kr : Bool) (dt : ℚ) (b : Bool) :
    { move_piece dx dy { g with running := b } with running := true } =
      { move_piece dx dy g with running := true }
  ∧ { rotate_piece direction { g with running := b } with running := true } =
      { rotate_piece direction g with running := true }
  ∧ { soft_drop { g with running := b } with running := true } =
      { soft_drop g with running := true }
  ∧ { hard_drop nb { g with running := b } with running := true } =
      { hard_drop nb g with running := true }
  ∧ { hold_piece nb { g with running := b } with running := true } =
      { hold_piece nb g with running := true }
  ∧ { update kl kr nb dt { g with running := b } with running := true } =
      { update kl kr nb dt g with running := true } :=
  ⟨move_piece_mask dx dy g b, rotate_piece_mask direction g b, soft_drop_mask g b,
   hard_drop_mask nb g b, hold_mask nb g b, update_mask kl kr nb dt g b⟩

/-! ### C6: the 7-bag supply -/

/-- C6 counterexample.  The refill is NOT triggered "whenever the queue length
would fall below 7 after a draw": with exactly 7 queued pieces, the spawn
check `len(upcoming) < 7` fails, the draw happens without a refill, and the
queue is left at 6 (below 7) — the supplied bag was ignored (a refill would
have left 13). -/
theorem refill_trigger_counterexample :
    wSeven.upcoming_pieces.length = 7
  ∧ (spawn_new_piece shapeKeys wSeven).upcoming_pieces.length = 6
  ∧ (spawn_new_piece shapeKeys wSeven).upcoming_pieces.length < 7 := by
  refine ⟨by decide, by decide, by decide⟩

theorem map_shape_map_mkTetromino :
    ∀ l : List Shape, (l.map mkTetromino).map Tetromino.shape = l := by
  intro l
  induction l with
  | nil => rfl
  | cons a t ih => simp [mkTetromino, ih]

theorem shapeKeys_nodup : shapeKeys.Nodup := by decide

theorem shapeKeys_length : shapeKeys.length = 7 := by decide

/-- C6 amended.  The piece stream of a freshly constructed engine is the
concatenation of the two shuffled bags: with `s1`, `s2` the two shuffle
outcomes (each a permutation of the 7 kinds), the initial current piece
followed by the queue carries the kind sequence `s1 ++ s2`; its first 7
entries (initial piece + next 6 draws) are a permutation of the 7 kinds, and
no kind repeats within either bag-aligned window of 7.  The refill is
triggered at a draw exactly when the queue length before that draw is below 7
(equivalently, when the previous draw made it fall below 7): `spawn_new_piece`
appends the new bag iff `len(upcoming) < 7`, then pops the head. -/
theorem bag_stream_is_bag_concatenation (s1 s2 : List Shape)
    (h1 : s1.Perm shapeKeys) (h2 : s2.Perm shapeKeys) :
    ((initGame s1 s2).current_piece.shape ::
      (initGame s1 s2).upcoming_pieces.map Tetromino.shape) = s1 ++ s2
  ∧ (((initGame s1 s2).current_piece.shape ::
      (initGame s1 s2).upcoming_pieces.map Tetromino.shape).take 7).Perm shapeKeys
  ∧ (((initGame s1 s2).current_piece.shape ::
      (initGame s1 s2).upcoming_pieces.map Tetromino.shape).take 7).Nodup
  ∧ (((initGame s1 s2).current_piece.shape ::
      (initGame s1 s2).upcoming_pieces.map Tetromino.shape).drop 7).Nodup
  ∧ (∀ (g : TetrisGame) (nb : List Shape),
      (spawn_new_piece nb g).upcoming_pieces =
        (if g.upcoming_pieces.length < 7
         then g.upcoming_pieces ++ nb.map mkTetromino
         else g.upcoming_pieces).tail
      ∧ (spawn_new_piece nb g).current_piece =
        (if g.upcoming_pieces.length < 7
         then g.upcoming_pieces ++ nb.map mkTetromino
         else g.upcoming_pieces).headD (mkTetromino Shape.I)) := by
  have hlen1 : s1.length = 7 := by rw [h1.length_eq, shapeKeys_length]
  have hstream : ((initGame s1 s2).current_piece.shape ::
      (initGame s1 s2).upcoming_pieces.map Tetromino.shape) = s1 ++ s2 := by
    rcases hs1 : s1 with _ | ⟨a, t⟩
    · rw [hs1] at hlen1; simp at hlen1
    · simp only [initGame, _generate_new_bag, List.nil_append, ← List.map_append]
      rw [← hs1]
      have : ∃ r : List Tetromino, (s1 ++ s2).map mkTetromino = mkTetromino a :: r := by
        rw [hs1]
        exact ⟨(t ++ s2).map mkTetromino, by simp⟩
      obtain ⟨r, hr⟩ := this
      rw [hr]
      simp only [List.headD_cons, List.tail_cons]
      have := map_shape_map_mkTetromino (s1 ++ s2)
      rw [hr] at this
      simpa [mkTetromino] using this
  refine ⟨hstream, ?_, ?_, ?_, ?_⟩
  · rw [hstream, List.take_left' hlen1]
    exact h1
  · rw [hstream, List.take_left' hlen1]
    exact h1.nodup_iff.mpr shapeKeys_nodup
  · rw [hstream, List.drop_left' hlen1]
    exact h2.nodup_iff.mpr shapeKeys_nodup
  · intro g nb
    constructor
    · simp only [spawn_new_piece, _generate_new_bag]
      split_ifs <;> rfl
    · simp only [spawn_new_piece, _generate_new_bag]
      split_ifs <;> rfl

/-- Witness for C6 at the identity shuffles: the fresh engine's kind stream is
`shapeKeys ++ shapeKeys` and its first window of 7 is exactly the 7 kinds. -/
theorem bag_stream_is_bag_concatenation_witness :
    ((initGame shapeKeys shapeKeys).current_piece.shape ::
      (initGame shapeKeys shapeKeys).upcoming_pieces.map Tetromino.shape) =
        shapeKeys ++ shapeKeys
  ∧ (((initGame shapeKeys shapeKeys).current_piece.shape ::
      (initGame shapeKeys shapeKeys).upcoming_pieces.map Tetromino.shape).take 7).Perm
        shapeKeys :=
  ⟨(bag_stream_is_bag_concatenation shapeKeys shapeKeys (List.Perm.refl _)
      (List.Perm.refl _)).1,
   (bag_stream_is_bag_concatenation shapeKeys shapeKeys (List.Perm.refl _)
      (List.Perm.refl _)).2.1⟩

/-! ### C5: hard drop -/

/-- Fuel-indexed induction for the hard-drop fall loop: from a valid start
the loop only changes the anchor row, descends at least one row, stops at the
first invalid placement, and every intermediate row of the chain is valid. -/
theorem fall_props_aux (b : Board) :
    ∀ (n : Nat) (p : Tetromino), (21 - p.y).toNat ≤ n →
      _is_valid_position b p = true →
      (fallWhileValid b p).shape = p.shape ∧
      (fallWhileValid b p).rotation_index = p.rotation_index ∧
      (fallWhileValid b p).x = p.x ∧
      (fallWhileValid b p).color = p.color ∧
      p.y + 1 ≤ (fallWhileValid b p).y ∧
      _is_valid_position b (fallWhileValid b p) = false ∧
      (∀ j : Int, p.y ≤ j → j + 1 ≤ (fallWhileValid b p).y →
        _is_valid_position b { p with y := j } = true) := by
  intro n
  induction n with
  | zero =>
      intro p hn hv
      have := valid_y_le b p hv
      omega
  | succ n ih =>
      intro p hn hv
      rw [fallWhileValid, dif_pos hv]
      by_cases hv' : _is_valid_position b { p with y := p.y + 1 } = true
      · have hm : (21 - ({ p with y := p.y + 1 } : Tetromino).y).toNat ≤ n := by
          have := valid_y_le b p hv
          dsimp only
          omega
        obtain ⟨h1, h2, h3, h4, h5, h6, h7⟩ := ih { p with y := p.y + 1 } hm hv'
        refine ⟨h1, h2, h3, h4, ?_, h6, ?_⟩
        · have hyy : ({ p with y := p.y + 1 } : Tetromino).y = p.y + 1 := rfl
          omega
        · intro j hj1 hj2
          rcases eq_or_lt_of_le hj1 with he | hl
          · have hpe : ({ p with y := j } : Tetromino) = p := by
              rw [← he]
            rw [hpe]
            exact hv
          · exact h7 j (by dsimp only; omega) hj2
      · rw [fallWhileValid, dif_neg hv']
        refine ⟨rfl, rfl, rfl, rfl, by dsimp only; omega, ?_, ?_⟩
        · exact Bool.eq_false_iff.mpr hv'
        · intro j hj1 hj2
          have hje : j = p.y := by
            dsimp only at hj2
            omega
          have hpe : ({ p with y := j } : Tetromino) = p := by
            rw [hje]
          rw [hpe]
          exact hv

theorem fall_props (b : Board) (p : Tetromino) (hv : _is_valid_position b p = true) :
    (fallWhileValid b p).shape = p.shape ∧
    (fallWhileValid b p).rotation_index = p.rotation_index ∧
    (fallWhileValid b p).x = p.x ∧
    (fallWhileValid b p).color = p.color ∧
    p.y + 1 ≤ (fallWhileValid b p).y ∧
    _is_valid_position b (fallWhileValid b p) = false ∧
    (∀ j : Int, p.y ≤ j → j + 1 ≤ (fallWhileValid b p).y →
      _is_valid_position b { p with y := j } = true) :=
  fall_props_aux b _ p le_rfl hv

/-- The resting position of the hard drop (one row above the first invalid
row of the chain) is valid. -/
theorem fall_pf_valid (b : Board) (p : Tetromino)
    (hv : _is_valid_position b p = true) :
    _is_valid_position b
      { fallWhileValid b p with y := (fallWhileValid b p).y - 1 } = true := by
  obtain ⟨h1, h2, h3, h4, h5, h6, h7⟩ := fall_props b p hv
  have hrec : ({ fallWhileValid b p with y := (fallWhileValid b p).y - 1 } :
      Tetromino) = { p with y := (fallWhileValid b p).y - 1 } :=
    Tetromino.ext h1 h2 h3 rfl h4
  rw [hrec]
  exact h7 _ (by omega) (by omega)

/-- C5.  From a valid active-piece position, `hard_drop` is deterministic:
the piece is moved straight down to the last row of the valid chain (its
resting position is valid and the row below it is not — it rests immediately
above the highest obstruction or the floor in its column span, every row it
passed through being valid), and the call is exactly one lock followed by
exactly one spawn, bypassing lock delay entirely: the result is independent
of `lock_timer` and `drop_timer` (the latter merely passes through). -/
theorem hard_drop_rests_on_support (g : TetrisGame) (nb : List Shape)
    (h : _is_valid_position g.board g.current_piece = true) :
    _is_valid_position g.board { fallWhileValid g.board g.current_piece with
      y := (fallWhileValid g.board g.current_piece).y - 1 } = true
  ∧ _is_valid_position g.board (fallWhileValid g.board g.current_piece) = false
  ∧ (fallWhileValid g.board g.current_piece).y =
      ({ fallWhileValid g.board g.current_piece with
         y := (fallWhileValid g.board g.current_piece).y - 1 } : Tetromino).y + 1
  ∧ g.current_piece.y ≤ ({ fallWhileValid g.board g.current_piece with
      y := (fallWhileValid g.board g.current_piece).y - 1 } : Tetromino).y
  ∧ (∀ j : Int, g.current_piece.y ≤ j →
      j ≤ ({ fallWhileValid g.board g.current_piece with
        y := (fallWhileValid g.board g.current_piece).y - 1 } : Tetromino).y →
      _is_valid_position g.board { g.current_piece with y := j } = true)
  ∧ hard_drop nb g = spawn_new_piece nb (lock_piece { g with
      current_piece := { fallWhileValid g.board g.current_piece with
        y := (fallWhileValid g.board g.current_piece).y - 1 } })
  ∧ (∀ lt dtm : ℚ, hard_drop nb { g with lock_timer := lt, drop_timer := dtm } =
      { hard_drop nb g with drop_timer := dtm }) := by
  obtain ⟨h1, h2, h3, h4, h5, h6, h7⟩ := fall_props g.board g.current_piece h
  refine ⟨fall_pf_valid g.board g.current_piece h, h6, by dsimp only; omega,
    by dsimp only; omega, ?_, rfl, ?_⟩
  · intro j hj1 hj2
    dsimp only at hj2
    exact h7 j hj1 (by omega)
  · intro lt dtm
    simp only [hard_drop, lock_piece, clear_lines, spawn_new_piece, _generate_new_bag]
    split_ifs <;> rfl

/-- Witness for C5: hard-dropping the fresh I-piece (valid at the spawn
position) on the empty board. -/
theorem hard_drop_rests_on_support_witness :
    (_is_valid_position wGame.board wGame.current_piece = true)
  ∧ _is_valid_position wGame.board { fallWhileValid wGame.board wGame.current_piece with
      y := (fallWhileValid wGame.board wGame.current_piece).y - 1 } = true
  ∧ hard_drop shapeKeys wGame = spawn_new_piece shapeKeys (lock_piece { wGame with
      current_piece := { fallWhileValid wGame.board wGame.current_piece with
        y := (fallWhileValid wGame.board wGame.current_piece).y - 1 } }) :=
  ⟨by decide,
   (hard_drop_rests_on_support wGame shapeKeys (by decide)).1,
   (hard_drop_rests_on_support wGame shapeKeys (by decide)).2.2.2.2.2.1⟩

/-! ### C7: lock-delay timing across two ticks -/

theorem spawn_lock_drop_timer (nb : List Shape) (x : TetrisGame) :
    (spawn_new_piece nb (lock_piece x)).drop_timer = x.drop_timer := by
  simp only [spawn_new_piece, lock_piece, clear_lines, _generate_new_bag]
  split_ifs <;> rfl

theorem spawn_lock_drop_interval (nb : List Shape) (x : TetrisGame) :
    (spawn_new_piece nb (lock_piece x)).drop_interval = x.drop_interval := by
  simp only [spawn_new_piece, lock_piece, clear_lines, _generate_new_bag]
  split_ifs <;> rfl

/-- C7.  With the piece grounded, `lock_timer = 0`, `drop_interval` large
enough that auto-gravity does not fire during either tick, and no held
movement keys, `tick(0.3)` then `tick(0.3)` locks exactly once, during the
second tick: after the first tick the board and the active piece are
unchanged and the lock timer reads 0.3 < LOCK_DELAY; the second tick reaches
0.6 ≥ LOCK_DELAY and its result is exactly one lock (commit + line-clear)
followed by one spawn (a new active piece from the bag). -/
theorem lock_delay_two_ticks (g : TetrisGame) (kl kr : Bool) (nb1 nb2 : List Shape)
    (hground : is_on_ground g.board g.current_piece = true)
    (hlock : g.lock_timer = 0)
    (hdrop : g.drop_timer + 6/10 < g.drop_interval)
    (hl : g.left_held = false) (hr : g.right_held = false) :
    (update kl kr nb1 (3/10) g).board = g.board
  ∧ (update kl kr nb1 (3/10) g).current_piece = g.current_piece
  ∧ (update kl kr nb1 (3/10) g).lock_timer = 3/10
  ∧ update kl kr nb2 (3/10) (update kl kr nb1 (3/10) g) =
      spawn_new_piece nb2 (lock_piece { g with
        drop_timer := g.drop_timer + 3/10 + 3/10,
        total_time := g.total_time + 3/10 + 3/10,
        lock_timer := 3/10 + 3/10 }) := by
  have hg1 : update kl kr nb1 (3/10) g = { g with
      drop_timer := g.drop_timer + 3/10,
      total_time := g.total_time + 3/10,
      lock_timer := 3/10 } := by
    show updateGravity nb1 (3/10) (updateHorizontal kl kr (3/10) g) = _
    have hhor : updateHorizontal kl kr (3/10) g = g := by
      simp [updateHorizontal, hl, hr]
    rw [hhor]
    simp only [updateGravity, hground, if_true, hlock, zero_add]
    have hc1 : ¬ ((3/10 : ℚ) ≥ LOCK_DELAY) := by norm_num [LOCK_DELAY]
    rw [if_neg hc1]
    have hc2 : ¬ (g.drop_timer + 3/10 ≥ g.drop_interval) := by
      intro hc
      have h36 : (3 : ℚ)/10 < 6/10 := by norm_num
      linarith
    rw [if_neg hc2]
  refine ⟨by rw [hg1], by rw [hg1], by rw [hg1], ?_⟩
  rw [hg1]
  show updateGravity nb2 (3/10) (updateHorizontal kl kr (3/10) { g with
      drop_timer := g.drop_timer + 3/10, total_time := g.total_time + 3/10,
      lock_timer := 3/10 }) = _
  have hhor2 : updateHorizontal kl kr (3/10) { g with
      drop_timer := g.drop_timer + 3/10, total_time := g.total_time + 3/10,
      lock_timer := 3/10 } = { g with
      drop_timer := g.drop_timer + 3/10, total_time := g.total_time + 3/10,
      lock_timer := 3/10 } := by
    simp [updateHorizontal, hl, hr]
  rw [hhor2]
  simp only [updateGravity, hground, if_true]
  have hc3 : ((3 : ℚ)/10 + 3/10 ≥ LOCK_DELAY) := by norm_num [LOCK_DELAY]
  rw [if_pos hc3]
  rw [spawn_lock_drop_timer nb2 { g with
      drop_timer := g.drop_timer + 3/10 + 3/10,
      total_time := g.total_time + 3/10 + 3/10,
      lock_timer := 3/10 + 3/10 },
    spawn_lock_drop_interval nb2 { g with
      drop_timer := g.drop_timer + 3/10 + 3/10,
      total_time := g.total_time + 3/10 + 3/10,
      lock_timer := 3/10 + 3/10 }]
  dsimp only
  have hc4 : ¬ (g.drop_timer + 3/10 + 3/10 ≥ g.drop_interval) := by
    intro hc
    linarith
  rw [if_neg hc4]

theorem wTick_gravity_quiet : wTick.drop_timer + 6/10 < wTick.drop_interval := by
  have h1 : wTick.drop_timer = 0 := rfl
  have h2 : wTick.drop_interval = 100 := rfl
  rw [h1, h2]
  norm_num

/-- Witness for C7: fresh game, current I-piece grounded on the bottom row,
`drop_interval = 100`. -/
theorem lock_delay_two_ticks_witness :
    (is_on_ground wTick.board wTick.current_piece = true ∧ wTick.lock_timer = 0 ∧
      wTick.drop_timer + 6/10 < wTick.drop_interval ∧ wTick.left_held = false ∧
      wTick.right_held = false)
  ∧ ((update false false [] (3/10) wTick).board = wTick.board
     ∧ (update false false [] (3/10) wTick).current_piece = wTick.current_piece
     ∧ (update false false [] (3/10) wTick).lock_timer = 3/10
     ∧ update false false shapeKeys (3/10) (update false false [] (3/10) wTick) =
         spawn_new_piece shapeKeys (lock_piece { wTick with
           drop_timer := wTick.drop_timer + 3/10 + 3/10,
           total_time := wTick.total_time + 3/10 + 3/10,
           lock_timer := 3/10 + 3/10 })) :=
  ⟨⟨by decide, by decide, wTick_gravity_quiet, by decide, by decide⟩,
   lock_delay_two_ticks wTick false false [] shapeKeys (by decide) (by decide)
     wTick_gravity_quiet (by decide) (by decide)⟩

/-! ### C9: the active piece of every reachable running state is in the grid -/

theorem inv_tryPlace (g : TetrisGame) (p : Tetromino) (h : Inv g) :
    Inv (if !(_is_valid_position g.board p) then g
         else if is_on_ground g.board p then
           { g with current_piece := p, lock_timer := 0 }
         else { g with current_piece := p }) := by
  by_cases hv : (!(_is_valid_position g.board p)) = true
  · rw [if_pos hv]
    exact h
  · rw [if_neg hv]
    have hvp : _is_valid_position g.board p = true := by
      rcases hb : _is_valid_position g.board p with _ | _
      · rw [hb] at hv; simp at hv
      · rfl
    by_cases hg : is_on_ground g.board p = true
    · rw [if_pos hg]
      intro _
      exact hvp
    · rw [if_neg hg]
      intro _
      exact hvp

theorem inv_move (dx dy : Int) (g : TetrisGame) (h : Inv g) :
    Inv (move_piece dx dy g) :=
  inv_tryPlace g _ h

theorem inv_rotate (direction : Int) (g : TetrisGame) (h : Inv g) :
    Inv (rotate_piece direction g) :=
  inv_tryPlace g _ h

theorem inv_soft (g : TetrisGame) (h : Inv g) : Inv (soft_drop g) :=
  inv_tryPlace g _ h

/-- Spawning re-validates the new piece against the current board, so the
invariant holds after any spawn, whatever the input state was. -/
theorem inv_spawn (nb : List Shape) (g : TetrisGame) : Inv (spawn_new_piece nb g) := by
  unfold Inv
  simp only [spawn_new_piece, _generate_new_bag]
  split_ifs with h1 h2 h3
  · intro hr
    simp at hr
  · intro _
    simpa using h2
  · intro hr
    simp at hr
  · intro _
    simpa using h3

theorem inv_hold (nb : List Shape) (g : TetrisGame) (h : Inv g) :
    Inv (hold_piece nb g) := by
  unfold hold_piece
  by_cases hu : g.hold_used_this_turn = true
  · rw [if_pos hu]
    exact h
  · rw [if_neg hu]
    rcases hheld : g.held_piece with _ | held
    · simp only [hheld]
      intro hr
      exact inv_spawn nb
        { g with hold_used_this_turn := true, held_piece := some g.current_piece } hr
    · simp only [hheld]
      split_ifs with hv
      · intro hr
        simp at hr
      · intro _
        simpa using hv

theorem inv_hard (nb : List Shape) (g : TetrisGame) : Inv (hard_drop nb g) :=
  inv_spawn nb (lock_piece { g with
    current_piece := { fallWhileValid g.board g.current_piece with
      y := (fallWhileValid g.board g.current_piece).y - 1 } })

theorem inv_updateHorizontal (kl kr : Bool) (dt : ℚ) (g : TetrisGame) (h : Inv g) :
    Inv (updateHorizontal kl kr dt g) := by
  simp only [updateHorizontal]
  split_ifs
  · intro hr
    exact inv_move (-1) 0
      { g with horizontal_move_cooldown := g.horizontal_move_cooldown - dt }
      (fun hx => h hx) hr
  · intro hr
    exact inv_move 1 0
      { g with horizontal_move_cooldown := g.horizontal_move_cooldown - dt }
      (fun hx => h hx) hr
  · intro hr
    exact h hr
  · intro hr
    exact h hr
  · exact h

theorem inv_final_drop (x : TetrisGame) (hx : Inv x) :
    Inv (if x.drop_timer ≥ x.drop_interval then soft_drop { x with drop_timer := 0 }
         else x) := by
  split_ifs with hc
  · exact inv_soft { x with drop_timer := 0 } (fun hr => hx hr)
  · exact hx

theorem inv_updateGravity (nb : List Shape) (dt : ℚ) (g : TetrisGame) (h : Inv g) :
    Inv (updateGravity nb dt g) := by
  simp only [updateGravity]
  apply inv_final_drop
  split_ifs
  · exact inv_spawn nb _
  · intro hr
    exact h hr
  · intro hr
    exact h hr

theorem inv_update (kl kr : Bool) (nb : List Shape) (dt : ℚ) (g : TetrisGame)
    (h : Inv g) : Inv (update kl kr nb dt g) :=
  inv_updateGravity nb dt _ (inv_updateHorizontal kl kr dt g h)

theorem spawn_position_valid_on_empty :
    ∀ s : Shape, _is_valid_position emptyBoard (mkTetromino s) = true := by decide

theorem inv_init (s1 s2 : List Shape) : Inv (initGame s1 s2) := by
  intro _
  have hboard : (initGame s1 s2).board = emptyBoard := rfl
  have hcur : ∃ s : Shape, (initGame s1 s2).current_piece = mkTetromino s := by
    show ∃ s,
      (([] ++ s1.map mkTetromino ++ s2.map mkTetromino).headD (mkTetromino Shape.I)) =
        mkTetromino s
    rw [List.nil_append, ← List.map_append]
    rcases s1 ++ s2 with _ | ⟨a, t⟩
    · exact ⟨Shape.I, rfl⟩
    · exact ⟨a, rfl⟩
  obtain ⟨s, hs⟩ := hcur
  rw [show _is_valid_position (initGame s1 s2).board (initGame s1 s2).current_piece =
      _is_valid_position emptyBoard (mkTetromino s) from by rw [hboard, hs]]
  exact spawn_position_valid_on_empty s

theorem inv_reachable : ∀ g : TetrisGame, Reachable g → Inv g := by
  intro g hg
  induction hg with
  | init s1 s2 => exact inv_init s1 s2
  | move dx dy g _ ih => exact inv_move dx dy g ih
  | rot direction g _ ih => exact inv_rotate direction g ih
  | soft g _ ih => exact inv_soft g ih
  | hard nb g _ _ => exact inv_hard nb g
  | hold nb g _ ih => exact inv_hold nb g ih
  | tick kl kr nb dt g _ ih => exact inv_update kl kr nb dt g ih

/-- C9.  (1) In every reachable engine state that is still running, the active
piece is at a valid position, hence all 4 of its cells are inside the 10×20
grid; (2) a valid position means every block satisfies 0 ≤ x < GRID_WIDTH and
0 ≤ y < GRID_HEIGHT (in particular position validation rejects y < 0); (3)
every kind's rotation-0 spawn cells are valid on the empty board; (4) the
piece committed by a hard drop from a valid position has all its cells inside
the grid, so the out-of-range skip branch of the commit is not exercised. -/
theorem reachable_piece_in_grid :
    (∀ g : TetrisGame, Reachable g → g.running = true →
      _is_valid_position g.board g.current_piece = true)
  ∧ (∀ (b : Board) (p : Tetromino), _is_valid_position b p = true →
      ∀ c ∈ p.get_blocks, 0 ≤ c.1 ∧ c.1 < (GRID_WIDTH : Int) ∧
        0 ≤ c.2 ∧ c.2 < (GRID_HEIGHT : Int))
  ∧ (∀ s : Shape, _is_valid_position emptyBoard (mkTetromino s) = true)
  ∧ (∀ g : TetrisGame, _is_valid_position g.board g.current_piece = true →
      ∀ c ∈ ({ fallWhileValid g.board g.current_piece with
        y := (fallWhileValid g.board g.current_piece).y - 1 } : Tetromino).get_blocks,
        0 ≤ c.1 ∧ c.1 < (GRID_WIDTH : Int) ∧ 0 ≤ c.2 ∧ c.2 < (GRID_HEIGHT : Int)) :=
  ⟨fun g hg => inv_reachable g hg,
   valid_blocks_in_range,
   spawn_position_valid_on_empty,
   fun g hv => valid_blocks_in_range g.board _ (fall_pf_valid g.board g.current_piece hv)⟩

/-- Witness for C9 at a fresh game: it is reachable and running, its active
piece is at a valid position, and the hard-drop resting piece of its valid
active piece has in-range cells. -/
theorem reachable_piece_in_grid_witness :
    _is_valid_position (initGame shapeKeys shapeKeys).board
      (initGame shapeKeys shapeKeys).current_piece = true
  ∧ (∀ c ∈ ({ fallWhileValid wGame.board wGame.current_piece with
      y := (fallWhileValid wGame.board wGame.current_piece).y - 1 } :
        Tetromino).get_blocks,
      0 ≤ c.1 ∧ c.1 < (GRID_WIDTH : Int) ∧ 0 ≤ c.2 ∧ c.2 < (GRID_HEIGHT : Int)) :=
  ⟨reachable_piece_in_grid.1 (initGame shapeKeys shapeKeys)
    (Reachable.init shapeKeys shapeKeys) rfl,
   reachable_piece_in_grid.2.2.2 wGame (by decide)⟩

end Resomino
